import Mathlib

/-!
Shallow embedding of the memory-trigger core of the repository
(`scripts/memory_cache.py` and `scripts/memory_detectors/`) and proofs of the
spec's claims about it.

Modelling conventions, used throughout:
* Python `datetime` timestamps are rationals (seconds); `datetime.now()` becomes
  an explicit `now : ℚ` argument threaded to each operation that reads the clock.
* Python floats are rationals.  Every arithmetic expression on confidences in the
  source stays far from any float-rounding boundary, so the rational value agrees
  with the float value at every comparison the claims make.
* `hashlib.sha256(...).hexdigest()` (an external library call, used purely as a
  map key) is a parameter `h : String → String` of every query-cache operation.
* The persisted JSON file is modelled as `Option (CacheState α)`; `json.dump`
  followed by `json.load` on well-formed data is the identity, so `_save_cache`
  stores the state itself.
* `threading.Lock` is NOT reentrant: a thread re-acquiring a lock it already
  holds blocks forever.  All public cache operations acquire the instance lock on
  entry; the only nested acquisition in the source is
  `get_entity_names → cache_entity_names`, which therefore never returns.  That
  one spot is modelled explicitly by the `.deadlock` outcome below; every other
  operation acquires a free lock and is modelled as a plain function.
-/

namespace MemCache

/-! ### Ordered-map primitives

`cache_data["query_cache"]` is a Python `OrderedDict`, modelled as an
association list, insertion order preserved, most recently used at the tail. -/

/-- Embeds `key in od` / `od[key]` on an ordered dict. -/
def lookupKey {β : Type} (k : String) : List (String × β) → Option β
  | [] => none
  | (k₁, v) :: rest => if k₁ = k then some v else lookupKey k rest

/-- Embeds `key in od`. -/
def containsKey {β : Type} (k : String) (l : List (String × β)) : Bool :=
  (lookupKey k l).isSome

/-- Embeds `del od[key]`: removes the (unique) binding of `k`, keeping the order of the
other bindings. -/
def eraseKey {β : Type} (k : String) : List (String × β) → List (String × β)
  | [] => []
  | (k₁, v) :: rest => if k₁ = k then rest else (k₁, v) :: eraseKey k rest

/-- Embeds `od.move_to_end(key)`: re-inserts the binding of `k` at the tail. -/
def moveToEnd {β : Type} (k : String) (l : List (String × β)) : List (String × β) :=
  match lookupKey k l with
  | none => l
  | some v => eraseKey k l ++ [(k, v)]

/-- The eviction loop of `cache_query_result`:
`while len(od) > max_size: od.popitem(last=False)` — repeatedly drop the
least-recently-used (head) entry until the size is within budget. -/
def evictLRU {β : Type} (maxSize : ℕ) : List (String × β) → List (String × β)
  | [] => []
  | x :: rest => if (x :: rest).length > maxSize then evictLRU maxSize rest else x :: rest

/-! ### Cache data model (`MemoryCache.cache_data`) -/

/-- Embeds `MemoryCache.ENTITY_NAMES_TTL`. -/
def ENTITY_NAMES_TTL : ℚ := 300

/-- Embeds `MemoryCache.QUERY_CACHE_TTL`. -/
def QUERY_CACHE_TTL : ℚ := 600

/-- Embeds `MemoryCache.MAX_QUERY_CACHE_SIZE` (class attribute, mutable in the
source's own test block; the operations below take the current value as the
`maxSize` argument). -/
def MAX_QUERY_CACHE_SIZE : ℕ := 100

/-- Embeds `cache_data["entity_names"]`. -/
structure EntityNamesSlot where
  data : List String
  last_refresh : Option ℚ
  ttl_seconds : ℚ
deriving DecidableEq, Repr

/-- One value of `cache_data["query_cache"]`; `α` is the opaque structured
query result. -/
structure QueryEntry (α : Type) where
  result : α
  timestamp : ℚ
  ttl_seconds : ℚ
  query : String
deriving DecidableEq, Repr

/-- Embeds `MemoryCache.cache_data`. -/
structure CacheState (α : Type) where
  entity_names : EntityNamesSlot
  query_cache : List (String × QueryEntry α)
deriving DecidableEq, Repr

/-- The on-disk JSON document (`~/.claude/memory-cache.json`); `none` is a
missing file.  `_save_cache`/`_load_cache` serialize the full state. -/
def Disk (α : Type) : Type := Option (CacheState α)

/-- The cache structure `__init__` builds before `_load_cache` runs. -/
def initialCacheState (α : Type) : CacheState α :=
  { entity_names := { data := [], last_refresh := none, ttl_seconds := ENTITY_NAMES_TTL }
    query_cache := [] }

/-! ### Cache operations -/

/-- Outcome of the `memory_client.read_graph()` call plus the
`[entity["name"] for entity in graph.get("entities", [])]` extraction inside
`get_entity_names`: either the fresh name list, or an exception. -/
inductive RefreshOutcome where
  | ok (names : List String)
  | err
deriving DecidableEq, Repr

/-- Result of `MemoryCache.get_entity_names`.  `.deadlock` marks the
refresh-success path: the source calls `self.cache_entity_names(...)` at
`memory_cache.py:98` while still holding the non-reentrant `self.lock` acquired
at line 78, so that call blocks forever and the function never returns. -/
inductive GetNamesOutcome where
  | val (names : List String)
  | raise
  | deadlock
deriving DecidableEq, Repr

/-- Embeds `MemoryCache.get_entity_names(memory_client, force_refresh)`.

No reachable path mutates the cache or the disk: the only mutation would happen
inside `cache_entity_names`, which deadlocks (see `GetNamesOutcome.deadlock`),
and the `except` path returns before any write.  So the function is a pure
reader of the entity-names slot. -/
def getEntityNames (now : ℚ) (client : Option RefreshOutcome) (forceRefresh : Bool)
    (slot : EntityNamesSlot) : GetNamesOutcome :=
  -- needs_refresh = force_refresh or not entity_cache["last_refresh"]
  let needs0 : Bool := forceRefresh || slot.last_refresh.isNone
  -- if not needs_refresh and entity_cache["last_refresh"]: TTL check
  let needs : Bool :=
    if needs0 then true
    else match slot.last_refresh with
      | some lr => decide (now > lr + slot.ttl_seconds)
      | none => false
  -- if needs_refresh and memory_client:
  match client, needs with
  | some outcome, true =>
    match outcome with
    | .ok _ =>
        -- self.cache_entity_names(entity_names) re-acquires the held lock
        .deadlock
    | .err =>
        -- except: if entity_cache["data"]: return it; else raise
        if slot.data ≠ [] then .val slot.data else .raise
  | _, _ => .val slot.data

/-- Embeds `MemoryCache.cache_entity_names(names)` (called with the lock free). -/
def cacheEntityNames {α : Type} (now : ℚ) (names : List String)
    (s : CacheState α) (_d : Disk α) : CacheState α × Disk α :=
  let s' : CacheState α :=
    { s with entity_names :=
        { data := names, last_refresh := some now, ttl_seconds := ENTITY_NAMES_TTL } }
  (s', some s')

/-- Embeds `MemoryCache.cache_query_result(query, result, ttl_seconds)`.
`ttlOpt = none` is the Python default `ttl_seconds=None`, resolved to
`QUERY_CACHE_TTL`. -/
def cacheQueryResult {α : Type} (h : String → String) (maxSize : ℕ) (now : ℚ)
    (q : String) (r : α) (ttlOpt : Option ℚ) (s : CacheState α) (_d : Disk α) :
    CacheState α × Disk α :=
  let ttl := ttlOpt.getD QUERY_CACHE_TTL
  let key := h q
  let entry : QueryEntry α := { result := r, timestamp := now, ttl_seconds := ttl, query := q }
  let qc0 := s.query_cache
  -- if key exists, remove it first (for LRU ordering)
  let qc1 := if containsKey key qc0 then eraseKey key qc0 else qc0
  -- add to end (most recently used)
  let qc2 := qc1 ++ [(key, entry)]
  -- enforce LRU eviction
  let qc3 := evictLRU maxSize qc2
  let s' := { s with query_cache := qc3 }
  (s', some s')

/-- Embeds `MemoryCache.get_cached_query(query)`: returns the cached result (if any)
together with the new in-memory state and the new disk contents. -/
def getCachedQuery {α : Type} (h : String → String) (now : ℚ) (q : String)
    (s : CacheState α) (d : Disk α) : Option α × CacheState α × Disk α :=
  let key := h q
  match lookupKey key s.query_cache with
  | none => (none, s, d)
  | some e =>
    if now > e.timestamp + e.ttl_seconds then
      -- expired: remove it, persist, report miss
      let s' := { s with query_cache := eraseKey key s.query_cache }
      (none, s', some s')
    else
      -- move to end (most recently used), no save on this path
      (some e.result, { s with query_cache := moveToEnd key s.query_cache }, d)

/-- Embeds `MemoryCache.clear_expired()`: returns the removed count with the new state
and disk. -/
def clearExpired {α : Type} (now : ℚ) (s : CacheState α) (d : Disk α) :
    ℕ × CacheState α × Disk α :=
  let slot := s.entity_names
  let (slot', c1) :=
    match slot.last_refresh with
    | some lr =>
      if now > lr + slot.ttl_seconds then
        ({ slot with data := [], last_refresh := none }, 1)
      else (slot, 0)
    | none => (slot, 0)
  let expired := s.query_cache.filter (fun p => decide (now > p.2.timestamp + p.2.ttl_seconds))
  let qc' := s.query_cache.filter (fun p => !decide (now > p.2.timestamp + p.2.ttl_seconds))
  let removed := c1 + expired.length
  let s' : CacheState α := { entity_names := slot', query_cache := qc' }
  if removed > 0 then (removed, s', some s') else (removed, s', d)

/-- Constructing a fresh `MemoryCache` instance against disk `d`:
`__init__` builds the empty structure, then `_load_cache` restores both tiers
from the file (when present) and runs `clear_expired()` once. -/
def newInstance (α : Type) (loadTime : ℚ) (d : Disk α) : CacheState α × Disk α :=
  match d with
  | none => (initialCacheState α, d)
  | some saved =>
    let (_, s', d') := clearExpired loadTime saved d
    (s', d')

end MemCache

section SmokeTests

open MemCache

example : evictLRU 3 [("a", 1), ("b", 2), ("c", 3), ("d", 4), ("e", 5)] =
    [("c", 3), ("d", 4), ("e", 5)] := by decide

example : getEntityNames 0 (some (.ok ["X"])) false
    (initialCacheState ℕ).entity_names = .deadlock := by decide

example : getEntityNames 301 (some .err) false
    { data := ["Old"], last_refresh := some 0, ttl_seconds := 300 } = .val ["Old"] := by with_unfolding_all decide

example : getEntityNames 301 (some .err) false
    { data := [], last_refresh := some 0, ttl_seconds := 300 } = .raise := by with_unfolding_all decide

example : getEntityNames 300 (some .err) false
    { data := [], last_refresh := some 0, ttl_seconds := 300 } = .val [] := by with_unfolding_all decide

end SmokeTests

namespace Detectors

open MemCache

/-! ### Shared text helpers

The detectors inspect prompts with Python `str` methods; prompts are modelled
as `String` and the helpers below are the corresponding operations, written out
over `String.toList`.  (`str.strip`/`str.split` treat exactly the ASCII
whitespace the prompts in this development contain.) -/

/-- Python `\w` on the ASCII range: letters, digits, underscore. -/
def pyWordChar (c : Char) : Bool :=
  c.isAlphanum || c = '_'

/-- Python `str.strip()`. -/
def pyStrip (s : String) : String :=
  String.mk (((s.toList.dropWhile Char.isWhitespace).reverse.dropWhile
    Char.isWhitespace).reverse)

/-- Python `str.lower()`. -/
def pyLower (s : String) : String :=
  String.mk (s.toList.map Char.toLower)

/-- Python `str.startswith(p)`. -/
def pyStartsWith (s p : String) : Bool :=
  p.toList.isPrefixOf s.toList

/-- Helper for `pySplitWs`: structural scan with the (reversed) current word. -/
def pySplitWsAux : List Char → List Char → List (List Char)
  | [], acc => if acc.isEmpty then [] else [acc.reverse]
  | c :: rest, acc =>
    if c.isWhitespace then
      if acc.isEmpty then pySplitWsAux rest [] else acc.reverse :: pySplitWsAux rest []
    else pySplitWsAux rest (c :: acc)

/-- Python `str.split()` (split on whitespace runs, dropping empty pieces). -/
def pySplitWs (l : List Char) : List (List Char) :=
  pySplitWsAux l []

/-- Substring containment, Python `a in b` on strings. -/
def listContainsSub (sub l : List Char) : Bool :=
  match l with
  | [] => sub.isEmpty
  | _ :: rest => sub.isPrefixOf l || listContainsSub sub rest

/-- The characters counted by `_is_code_block`: `'(){}<>[];:,.'`. -/
def specialChars : List Char := ['(', ')', '\x7b', '\x7d', '<', '>', '[', ']', ';', ':', ',', '.']

/-- Embeds `_is_code_block(text)` — identical in `keyword_detector.py` and
`entity_mention_detector.py`.  The float test `special_chars/len(text) > 0.3`
is the exact rational test `10*special_chars > 3*len(text)` (for every
attainable count/length pair the two sides of the float comparison are far
outside one double ulp of each other, so the float comparison agrees with the
rational one). -/
def isCodeBlock (text : String) : Bool :=
  if pyStartsWith (pyStrip text) "```" || pyStartsWith (pyStrip text) "    " then
    true
  else
    let special := (text.toList.filter (fun c => c ∈ specialChars)).length
    decide (text.toList.length > 0) && decide (10 * special > 3 * text.toList.length)

/-! ### `TriggerResult`

Modelled from the spec: the `TriggerResult` record and the `MemoryDetector`
base class live in `scripts/memory_detectors/__init__.py`, which is absent from
the sources; spec §3 pins the record down as
`{triggered, confidence, estimated_tokens, query_type, query_params, reason}`,
immutable and constructed fresh per evaluation.  `query_params` is a per-detector
string-keyed mapping; its four concrete shapes (one per detector) are the
constructors of `QueryParams`. -/
inductive QueryParams where
  | thresholdCheck (threshold current_count : ℤ) (search_terms : List String)
  | keywordSearch (query category matched_pattern : String)
  | entityDetails (names : List String)
  | projectContext (project project_path git_remote branch switch_type : String)
deriving DecidableEq, Repr

/-- Modelled from the spec: see `QueryParams`. -/
structure TriggerResult where
  triggered : Bool
  confidence : ℚ
  estimated_tokens : ℕ
  query_type : String
  query_params : QueryParams
  reason : String
deriving DecidableEq, Repr

/-- The `threshold` field of a `threshold_check` trigger's `query_params`. -/
def QueryParams.thresholdOf : QueryParams → Option ℤ
  | .thresholdCheck t _ _ => some t
  | _ => none

/-- The `switch_type` field of a `project_context` trigger's `query_params`. -/
def QueryParams.switchTypeOf : QueryParams → Option String
  | .projectContext _ _ _ _ st => some st
  | _ => none

/-- The `names` field of an `entity_details` trigger's `query_params`. -/
def QueryParams.namesOf : QueryParams → Option (List String)
  | .entityDetails ns => some ns
  | _ => none

/-! ### `TokenThresholdDetector` -/

/-- Python `sorted` on an integer list (insertion sort; equal integers are
indistinguishable, so stability is moot). -/
def insertSorted (x : ℤ) : List ℤ → List ℤ
  | [] => [x]
  | y :: ys => if y ≤ x then y :: insertSorted x ys else x :: y :: ys

/-- Python `sorted(thresholds)`. -/
def sortInts (l : List ℤ) : List ℤ :=
  l.foldl (fun acc x => insertSorted x acc) []

/-- Comma-grouping of a reversed digit list: a comma after every three digits
that are followed by more digits. -/
def commaGroupRev : List Char → List Char
  | a :: b :: c :: d :: rest => a :: b :: c :: ',' :: commaGroupRev (d :: rest)
  | l => l

/-- Python `f"{n:,}"`: decimal rendering with thousands separators, threes from
the right. -/
def commaFmt (n : ℤ) : String :=
  (if n < 0 then "-" else "") ++
    String.mk (commaGroupRev (Nat.toDigits 10 n.natAbs).reverse).reverse

/-- Mutable detector state: the configured thresholds (sorted at construction)
and the `self._triggered` set, as the list of its elements. -/
structure TokenThresholdState where
  thresholds : List ℤ
  triggered : List ℤ
deriving DecidableEq, Repr

/-- Embeds `TokenThresholdDetector.__init__`: thresholds from the config when given
(sorted), else `DEFAULT_THRESHOLDS = [100000, 150000]`; fired-set empty. -/
def ttdInit (cfgThresholds : Option (List ℤ)) : TokenThresholdState :=
  { thresholds :=
      match cfgThresholds with
      | some l => sortInts l
      | none => [100000, 150000]
    triggered := [] }

/-- Embeds `TokenThresholdDetector._calculate_confidence`. -/
def ttdConfidence (tokenCount threshold : ℤ) : ℚ :=
  let c : ℚ :=
    if threshold ≥ 150000 then 0.9
    else if threshold ≥ 100000 then 0.8
    else 0.7
  if tokenCount - threshold > 10000 then min 1 (c + 0.1) else c

/-- The threshold loop of `evaluate`: first configured threshold, in list
order, that is not already in the fired set and is crossed by `tokenCount`. -/
def firstCrossed (triggered : List ℤ) (tokenCount : ℤ) : List ℤ → Option ℤ
  | [] => none
  | t :: rest =>
    if t ∈ triggered then firstCrossed triggered tokenCount rest
    else if tokenCount ≥ t then some t
    else firstCrossed triggered tokenCount rest

/-- Embeds `TokenThresholdDetector.evaluate(prompt, context)`.  The prompt is unused;
`tokenCount` is `context.get('token_count', 0)`.  Returns the optional trigger
and the updated detector state. -/
def ttdEvaluate (s : TokenThresholdState) (tokenCount : ℤ) :
    Option TriggerResult × TokenThresholdState :=
  if tokenCount ≤ 0 then (none, s)
  else
    match firstCrossed s.triggered tokenCount s.thresholds with
    | none => (none, s)
    | some thr =>
      (some { triggered := true
              confidence := ttdConfidence tokenCount thr
              estimated_tokens := 175
              query_type := "threshold_check"
              query_params := .thresholdCheck thr tokenCount
                ["pending", "incomplete", "TODO", "in progress"]
              reason := "Token count (" ++ commaFmt tokenCount ++ ") crossed threshold "
                ++ commaFmt thr },
       { s with triggered := thr :: s.triggered })

/-- Embeds `TokenThresholdDetector.reset_state()`. -/
def ttdResetState (s : TokenThresholdState) : TokenThresholdState :=
  { s with triggered := [] }

/-- A sequence of `evaluate` calls (one `token_count` per call), collecting the
returned triggers. -/
def runTTD (s : TokenThresholdState) : List ℤ → List TriggerResult
  | [] => []
  | c :: cs =>
    match ttdEvaluate s c with
    | (some tr, s') => tr :: runTTD s' cs
    | (none, s') => runTTD s' cs

/-- How many triggers in `l` carry threshold `thr` in their `query_params`. -/
def countFires (thr : ℤ) (l : List TriggerResult) : ℕ :=
  (l.filter (fun tr => tr.query_params.thresholdOf = some thr)).length

end Detectors

namespace Detectors

open MemCache

/-! ### `KeywordDetector` -/

/-- An apostrophe, as a string. -/
def aposS : String := String.singleton (Char.ofNat 39)

/-- The result of `re.Pattern.search(prompt)` when it matches:
`match.group(0)`, `match.start()`, `match.end()`. -/
structure MatchInfo where
  text : List Char
  start : ℕ
  stop : ℕ
deriving DecidableEq, Repr

/-- A compiled regex's `search` method, as a function.  The regex engine (`re`,
standard library) is external; the detector stores one such function per
configured pattern string. -/
def RePattern : Type := List Char → Option MatchInfo

/-- Maximal runs of `\w` characters, i.e. `re.findall(r'\b\w+\b', text)`
(helper, with the reversed current run as accumulator). -/
def wordRunsAux : List Char → List Char → List (List Char)
  | [], acc => if acc.isEmpty then [] else [acc.reverse]
  | c :: rest, acc =>
    if pyWordChar c then wordRunsAux rest (c :: acc)
    else if acc.isEmpty then wordRunsAux rest [] else acc.reverse :: wordRunsAux rest []

/-- Maximal runs of `\w` characters in order. -/
def wordRuns (l : List Char) : List (List Char) :=
  wordRunsAux l []

/-- Does a full `\w+`-run match `[a-z]+[A-Z][a-zA-Z]*`?  Because `\b` only
holds at the ends of a maximal `\w+`-run, `re.findall(r'\b[a-z]+[A-Z][a-zA-Z]*\b', _)`
returns exactly the runs satisfying this whole-run test. -/
def camelRun (run : List Char) : Bool :=
  let lows := run.takeWhile (fun c => c.isLower && c.isAlpha)
  let rest := run.drop lows.length
  (!lows.isEmpty) &&
    match rest with
    | [] => false
    | u :: tail => u.isUpper && tail.all Char.isAlpha

/-- Does a full `\w+`-run match `[a-z]+_[a-z_]+` (see `camelRun` for why the
whole-run test is the right reading of the `\b`-delimited `findall`)? -/
def snakeRun (run : List Char) : Bool :=
  let lows := run.takeWhile (fun c => c.isLower && c.isAlpha)
  let rest := run.drop lows.length
  (!lows.isEmpty) &&
    match rest with
    | [] => false
    | u :: tail =>
      u = '_' && !tail.isEmpty && tail.all (fun c => (c.isLower && c.isAlpha) || c = '_')

/-- Does a full `\w+`-run match `[A-Z][a-z]+`? -/
def capitalizedRun (run : List Char) : Bool :=
  match run with
  | [] => false
  | u :: tail => u.isUpper && !tail.isEmpty && tail.all (fun c => c.isLower && c.isAlpha)

/-- Split at the first occurrence of `qc`: `some (before, after)` with the
occurrence removed, or `none`. -/
def splitAtChar (qc : Char) : List Char → Option (List Char × List Char)
  | [] => none
  | c :: rest =>
    if c = qc then some ([], rest)
    else (splitAtChar qc rest).map (fun p => (c :: p.1, p.2))

/-- Helper fact: `splitAtChar` removes exactly one character. -/
theorem splitAtChar_length {qc : Char} : ∀ {l content after : List Char},
    splitAtChar qc l = some (content, after) → content.length + after.length + 1 = l.length := by
  intro l
  induction l with
  | nil => intro content after h; simp [splitAtChar] at h
  | cons c rest ih =>
    intro content after h
    simp only [splitAtChar] at h
    split at h
    · simp only [Option.some.injEq, Prod.mk.injEq] at h
      obtain ⟨h1, h2⟩ := h
      subst h1; subst h2
      simp
    · cases hsp : splitAtChar qc rest with
      | none => rw [hsp] at h; simp at h
      | some p =>
        rw [hsp] at h
        have hpair : (c :: p.1, p.2) = (content, after) := by
          simpa [Option.map] using h
        have hlen := ih (show splitAtChar qc rest = some (p.1, p.2) from by rw [hsp])
        injection hpair.symm with h1 h2
        subst h1; subst h2
        simp only [List.length_cons]
        omega

/-- Embeds `re.findall(r'"([^"]+)"', text)` (resp. the single-quote variant):
leftmost non-overlapping quote pairs with non-empty content; an empty pair
lets its closing quote start a new candidate match, as the regex engine does. -/
def findQuoted (qc : Char) : List Char → List (List Char)
  | [] => []
  | c :: rest =>
    if c = qc then
      match h : splitAtChar qc rest with
      | none => []
      | some ([], after) => findQuoted qc (qc :: after)
      | some (c₁ :: content, after) => (c₁ :: content) :: findQuoted qc after
    else findQuoted qc rest
termination_by l => l.length
decreasing_by
  · have := splitAtChar_length h
    simp at this ⊢
    omega
  · have := splitAtChar_length h
    simp at this ⊢
    omega
  · simp

/-- keep-first deduplication by lowercased form (`seen` set as a list). -/
def dedupLowerAux (seen : List String) : List String → List String
  | [] => []
  | t :: ts =>
    if pyLower t ∈ seen then dedupLowerAux seen ts
    else t :: dedupLowerAux (pyLower t :: seen) ts

/-- Embeds `KeywordDetector._extract_query_terms(prompt, match)`. -/
def extractQueryTerms (prompt : List Char) (m : MatchInfo) : List String :=
  -- context = prompt[max(0, start-50) : min(len, end+50)]
  let lo := m.start - 50
  let hi := min prompt.length (m.stop + 50)
  let ctx := (prompt.take hi).drop lo
  -- quoted terms, then camelCase, snake_case, then up to 3 capitalized words
  let quoted := findQuoted '"' ctx ++ findQuoted (Char.ofNat 39) ctx
  let technical := (wordRuns ctx).filter camelRun ++ (wordRuns ctx).filter snakeRun
  let capitalized := ((wordRuns ctx).filter capitalizedRun).take 3
  let terms0 := quoted ++ technical ++ capitalized
  -- fallback: words around the matched keyword
  let terms :=
    if terms0.isEmpty then
      let ws := pySplitWs ctx
      let mws := pySplitWs m.text
      match ws.findIdx? (fun w => mws.any (fun mw => listContainsSub mw w)) with
      | some i => (ws.take (min ws.length (i + 3))).drop (i - 2)
      | none => []
    else terms0
  (dedupLowerAux [] (terms.map String.mk)).take 5

/-- Embeds `KeywordDetector._calculate_confidence(category, match, prompt)`. -/
def keywordConfidence (category : String) (prompt : String) : ℚ :=
  let c : ℚ :=
    if category = "memory" then 0.9
    else if category = "decision" then 0.85
    else if category = "architecture" ∨ category = "problem" then 0.75
    else 0.7
  let c := if '?' ∈ prompt.toList then min 1 (c + 0.1) else c
  if prompt.toList.length > 50 then min 1 (c + 0.05) else c

/-- First pattern of the list whose `search` matches. -/
def firstPatternMatch (text : List Char) : List RePattern → Option MatchInfo
  | [] => none
  | p :: ps =>
    match p text with
    | some m => some m
    | none => firstPatternMatch text ps

/-- The category loop of `KeywordDetector.evaluate`: first category (in dict
order) with a matching pattern. -/
def firstCategoryMatch (text : List Char) :
    List (String × List RePattern) → Option (String × MatchInfo)
  | [] => none
  | (cat, ps) :: rest =>
    match firstPatternMatch text ps with
    | some m => some (cat, m)
    | none => firstCategoryMatch text rest

/-- Embeds `KeywordDetector.evaluate(prompt, context)`.  `patterns` is
`self._compiled_patterns`: the configured (or default) category→patterns
mapping, each pattern compiled by the external regex engine. -/
def keywordEvaluate (patterns : List (String × List RePattern)) (prompt : String) :
    Option TriggerResult :=
  if (pyStrip prompt).toList.length < 5 then none
  else if isCodeBlock prompt then none
  else
    match firstCategoryMatch prompt.toList patterns with
    | none => none
    | some (category, m) =>
      let queryTerms := extractQueryTerms prompt.toList m
      some { triggered := true
             confidence := keywordConfidence category prompt
             estimated_tokens := 150
             query_type := "keyword_search"
             query_params := .keywordSearch (String.intercalate " " queryTerms) category
               (String.mk m.text)
             reason := "Keyword match: " ++ aposS ++ String.mk m.text ++ aposS ++
               " (category: " ++ category ++ ")" }

end Detectors





namespace Detectors

open MemCache

/-! ### `EntityMentionDetector` -/

/-- Detector configuration (`min_entity_length` default 2,
`partial_match_threshold` default 0.7). -/
structure EntityCfg where
  min_entity_length : ℕ
  partial_match_threshold : ℚ
deriving DecidableEq, Repr

/-- The config defaults of `EntityMentionDetector.__init__`. -/
def defaultEntityCfg : EntityCfg :=
  { min_entity_length := 2, partial_match_threshold := 0.7 }

/-- Embeds `_extract_words(text)`: `re.findall(r'\b\w+\b', text)` filtered to words of
at least `min_entity_length` characters. -/
def extractWords (minLen : ℕ) (text : List Char) : List (List Char) :=
  (wordRuns text).filter (fun w => minLen ≤ w.length)

/-- Word-character test on an optional character; `none` (text boundary)
counts as a non-word character, as for the regex `\b`. -/
def isWordO : Option Char → Bool
  | none => false
  | some c => pyWordChar c

/-- A `\b` word boundary between two (optional) adjacent characters. -/
def wordBoundary (a b : Option Char) : Bool :=
  isWordO a != isWordO b

/-- One match attempt of `_contains_word` at the current position (`prev` is
the preceding character): the word must occur here with a `\b` on each side. -/
def containsWordAux (word : List Char) : Option Char → List Char → Bool
  | prev, t =>
    (word.isPrefixOf t && wordBoundary prev word.head? &&
      wordBoundary word.getLast? (t.drop word.length).head?) ||
    (match t with
     | [] => false
     | c :: rest => containsWordAux word (some c) rest)

/-- Embeds `_contains_word(text, word)`: `re.search(r'\b' + re.escape(word) + r'\b', text)`
(both arguments are already lowercased by the caller).  Callers only pass
non-empty words. -/
def containsWord (text word : List Char) : Bool :=
  containsWordAux word none text

/-- Embeds `_fuzzy_match(entity_name, prompt_words)` — maximum of the best
substring-similarity over word pairs and the word-set overlap. -/
def fuzzyMatch (minLen : ℕ) (entityLower : List Char) (promptWords : List (List Char)) : ℚ :=
  let entityWords := extractWords minLen entityLower
  if entityWords.isEmpty || promptWords.isEmpty then 0
  else
    let maxSubstring :=
      entityWords.foldl (fun acc ew =>
        promptWords.foldl (fun acc2 pw =>
          if listContainsSub ew pw || listContainsSub pw ew then
            max acc2 ((min ew.length pw.length : ℚ) / (max ew.length pw.length : ℚ))
          else acc2) acc) 0
    let eset := entityWords.dedup
    let overlap := (eset.filter (fun w => promptWords.contains w)).length
    let overlapScore := (overlap : ℚ) / (eset.length : ℚ)
    max maxSubstring overlapScore

/-- The `match_type` tag of a found entity mention. -/
inductive MatchKind where
  | exactKind
  | partialKind
deriving DecidableEq, Repr

/-- One element of the list `_find_entity_mentions` returns. -/
structure EMatch where
  name : String
  match_type : MatchKind
  match_score : ℚ
deriving DecidableEq, Repr

/-- The entity loop of `_find_entity_mentions`. -/
def collectMatches (cfg : EntityCfg) (promptLower : List Char)
    (promptWords : List (List Char)) : List String → List EMatch
  | [] => []
  | name :: rest =>
    if name.toList.length < cfg.min_entity_length then
      collectMatches cfg promptLower promptWords rest
    else
      let entityLower := (pyLower name).toList
      if containsWord promptLower entityLower then
        { name := name, match_type := .exactKind, match_score := 1 } ::
          collectMatches cfg promptLower promptWords rest
      else
        let score := fuzzyMatch cfg.min_entity_length entityLower promptWords
        if cfg.partial_match_threshold ≤ score then
          { name := name, match_type := .partialKind, match_score := score } ::
            collectMatches cfg promptLower promptWords rest
        else collectMatches cfg promptLower promptWords rest

/-- Stable descending insertion by `match_score`
(`matches.sort(key=..., reverse=True)` keeps equal-scored entries in order). -/
def insertByScore (x : EMatch) : List EMatch → List EMatch
  | [] => [x]
  | y :: ys => if x.match_score ≤ y.match_score then y :: insertByScore x ys else x :: y :: ys

/-- Stable descending sort by `match_score`. -/
def sortByScore (l : List EMatch) : List EMatch :=
  l.foldl (fun acc x => insertByScore x acc) []

/-- Embeds `_find_entity_mentions(prompt, entity_names)`. -/
def findEntityMentions (cfg : EntityCfg) (prompt : String) (entityNames : List String) :
    List EMatch :=
  let promptLower := (pyLower prompt).toList
  let promptWords := extractWords cfg.min_entity_length promptLower
  (sortByScore (collectMatches cfg promptLower promptWords entityNames)).take 10

/-- Round-half-even on ℚ (what Python `round` does on an exactly-representable
tie; away from a tie it is rounding to the nearest integer). -/
def roundHalfEven (q : ℚ) : ℤ :=
  let f := ⌊q⌋
  let r := q - (f : ℚ)
  if r < 1/2 then f
  else if 1/2 < r then f + 1
  else if f % 2 = 0 then f else f + 1

/-- Python `round(q, 2)`. -/
def roundTo2 (q : ℚ) : ℚ :=
  (roundHalfEven (100 * q) : ℚ) / 100

/-- Embeds `EntityMentionDetector._calculate_confidence(matched_entities, prompt)`. -/
def entityConfidence (ms : List EMatch) (prompt : String) : ℚ :=
  if ms.isEmpty then 0
  else
    let exactCount := (ms.filter (fun m => m.match_type = MatchKind.exactKind)).length
    let c1 : ℚ :=
      if 1 ≤ exactCount then (if 1 < exactCount then 0.9 else 0.8) else 0.6
    let avg := (ms.foldl (fun a m => a + m.match_score) 0) / (ms.length : ℚ)
    let c2 := min 1 (c1 * avg)
    let c3 := if '?' ∈ prompt.toList then min 1 (c2 + 0.05) else c2
    let c4 := if 50 < prompt.toList.length then min 1 (c3 + 0.05) else c3
    roundTo2 c4

/-- Result of `EntityMentionDetector.evaluate`: the optional trigger, or the
propagated refresh failure / the refresh-success deadlock inherited from
`get_entity_names` (see `GetNamesOutcome`). -/
inductive EntityEvalOutcome where
  | res (r : Option TriggerResult)
  | raise
  | deadlock
deriving DecidableEq, Repr

/-- Embeds `EntityMentionDetector.evaluate(prompt, context)`.  `client` is the
detector's `self._memory_client`; `slot` is the entity-names slot of its
`MemoryCache`; `evaluate` passes `force_refresh=False`. -/
def entityEvaluate (cfg : EntityCfg) (now : ℚ) (client : Option RefreshOutcome)
    (slot : EntityNamesSlot) (prompt : String) : EntityEvalOutcome :=
  if (pyStrip prompt).toList.length < 3 then .res none
  else if isCodeBlock prompt then .res none
  else
    match getEntityNames now client false slot with
    | .raise => .raise
    | .deadlock => .deadlock
    | .val entityNames =>
      if entityNames.isEmpty then .res none
      else
        let matched := findEntityMentions cfg prompt entityNames
        if matched.isEmpty then .res none
        else
          let confidence := entityConfidence matched prompt
          let shown := String.intercalate ", "
            ((matched.take 3).map (fun m => aposS ++ m.name ++ aposS))
          let entityList :=
            if 3 < matched.length then
              shown ++ " (+" ++ toString (matched.length - 3) ++ " more)"
            else shown
          .res (some
            { triggered := true
              confidence := confidence
              estimated_tokens := 100
              query_type := "entity_details"
              query_params := .entityDetails (matched.map (fun m => m.name))
              reason := "Mentioned " ++ toString matched.length ++ " known entity(ies): " ++
                entityList })

end Detectors

namespace Detectors

open MemCache

/-! ### `ProjectSwitchDetector`

The project tracker (`project_tracker.py`, absent from the sources) is the
external collaborator of spec §6: `get_active_project()` yields
`{project, has_uncommitted}` or absent, and `set_active_project(...)` records
the new state.  `evaluate` is modelled as a function of the tracker's current
answer; the `set_active_project`/`has_uncommitted_changes` writes do not feed
back into the returned trigger and are not modelled.  `Path.resolve()` is a
filesystem call, passed in as `resolve`. -/

/-- Embeds `context['current_project']` / the tracker's stored project: a string
mapping read with `.get(key, default)`; a missing key is `none`. -/
structure Project where
  absolute_path : Option String
  git_remote_url : Option String
  git_branch : Option String
  name : Option String
deriving DecidableEq, Repr

/-- The tracker's `get_active_project()` payload (only its `project` key is
read by `evaluate`). -/
structure ActiveState where
  project : Option Project
deriving DecidableEq, Repr

/-- Detector configuration: `detect_branch_switch` (default `True`) and
`major_branches` (default `['main', 'master', 'develop', 'development']`). -/
structure ProjectCfg where
  detect_branch_switch : Bool
  major_branches : List String
deriving DecidableEq, Repr

/-- The config defaults of `ProjectSwitchDetector.__init__`. -/
def defaultProjectCfg : ProjectCfg :=
  { detect_branch_switch := true
    major_branches := ["main", "master", "develop", "development"] }

/-- Python `url.rstrip('.git')`: strips the trailing run of characters drawn
from the set `{'.', 'g', 'i', 't'}` — NOT the `.git` suffix. -/
def rstripGitChars (s : String) : String :=
  String.mk ((s.toList.reverse.dropWhile (fun c => c ∈ ['.', 'g', 'i', 't'])).reverse)

/-- Python `str.replace(pat, repl)`, every non-overlapping occurrence leftmost
first; structural recursion on a fuel that starts at the text length (a
non-empty `pat` consumes at least one character per step, so the fuel never
runs out). -/
def replaceAllLFuel (pat repl : List Char) : ℕ → List Char → List Char
  | _, [] => []
  | 0, l => l
  | fuel + 1, c :: rest =>
    if pat ≠ [] ∧ pat.isPrefixOf (c :: rest) then
      repl ++ replaceAllLFuel pat repl fuel ((c :: rest).drop pat.length)
    else c :: replaceAllLFuel pat repl fuel rest

/-- Python `str.replace(pat, repl)`. -/
def replaceAllL (pat repl l : List Char) : List Char :=
  replaceAllLFuel pat repl l.length l

/-- The URL normalization of `_detect_switch_type`, as the code performs it:
`remote.rstrip('.git').replace('http://', 'https://')`. -/
def codeNormalizeRemote (u : String) : String :=
  String.mk (replaceAllL "http://".toList "https://".toList (rstripGitChars u).toList)

/-- The URL normalization as the spec words it ("trailing `.git` stripped,
`http://`→`https://`"): remove one trailing `.git` SUFFIX, then rewrite the
scheme.  Stated only to compare the spec's claim against
`codeNormalizeRemote`. -/
def specNormalizeRemote (u : String) : String :=
  let l := u.toList
  let base := if ".git".toList.isSuffixOf l ∧ 4 ≤ l.length then l.take (l.length - 4) else l
  String.mk (replaceAllL "http://".toList "https://".toList base)

/-- The switch classification of `_detect_switch_type`, together with the
fields of its `details` dict that feed the reason string. -/
inductive SwitchInfo where
  | directory (from_path to_path from_project to_project : String)
  | remote (from_remote to_remote project_name : String)
  | branch (from_branch to_branch project_name : String)
deriving DecidableEq, Repr

/-- The `switch_type` string of a `SwitchInfo`. -/
def SwitchInfo.typeStr : SwitchInfo → String
  | .directory .. => "directory"
  | .remote .. => "remote"
  | .branch .. => "branch"

/-- Embeds `ProjectSwitchDetector._detect_switch_type(current, previous)`. -/
def detectSwitchType (resolve : String → String) (cfg : ProjectCfg)
    (cur prev : Project) : Option SwitchInfo :=
  let curPath := cur.absolute_path.getD ""
  let prevPath := prev.absolute_path.getD ""
  -- 1. directory change
  if curPath ≠ "" ∧ prevPath ≠ "" ∧ resolve curPath ≠ resolve prevPath then
    some (.directory prevPath curPath (prev.name.getD "Unknown") (cur.name.getD "Unknown"))
  else
    -- 2. remote URL change
    let curRemote := cur.git_remote_url.getD ""
    let prevRemote := prev.git_remote_url.getD ""
    if curRemote ≠ "" ∧ prevRemote ≠ "" ∧
        codeNormalizeRemote curRemote ≠ codeNormalizeRemote prevRemote then
      some (.remote prevRemote curRemote (cur.name.getD "Unknown"))
    else
      -- 3. major-branch change
      let curBranch := cur.git_branch.getD ""
      let prevBranch := prev.git_branch.getD ""
      if cfg.detect_branch_switch ∧ curBranch ≠ "" ∧ prevBranch ≠ "" ∧
          curBranch ≠ prevBranch ∧
          (curBranch ∈ cfg.major_branches ∨ prevBranch ∈ cfg.major_branches) then
        some (.branch prevBranch curBranch (cur.name.getD "Unknown"))
      else none

/-- Regex `github.com[:/](.+?)(?:\.git)?$` group 1 extraction: the remainder after
the separator, with a final `.git` dropped when the lazy group can stop before
it (i.e. whenever at least one character precedes it). -/
def stripLazyDotGit (tail : List Char) : List Char :=
  if ".git".toList.isSuffixOf tail ∧ 5 ≤ tail.length then tail.take (tail.length - 4)
  else tail

/-- Leftmost position where `host` is followed by `:` or `/` and at least one
more character; yields the regex's group 1. -/
def extractHostPath (host : List Char) : List Char → Option (List Char)
  | [] => none
  | c :: rest =>
    if host.isPrefixOf (c :: rest) then
      match (c :: rest).drop host.length with
      | sep :: t₁ :: t₂ =>
        if sep = ':' ∨ sep = '/' then some (stripLazyDotGit (t₁ :: t₂))
        else extractHostPath host rest
      | _ => extractHostPath host rest
    else extractHostPath host rest

/-- Embeds `_shorten_remote_url(url)`. -/
def shortenRemoteUrl (url : String) : String :=
  let l := url.toList
  let fallback := if 50 < l.length then String.mk (l.drop (l.length - 50)) else url
  if listContainsSub "github.com".toList l then
    match extractHostPath "github.com".toList l with
    | some p => "github.com/" ++ String.mk p
    | none => fallback
  else if listContainsSub "gitlab.com".toList l then
    match extractHostPath "gitlab.com".toList l with
    | some p => "gitlab.com/" ++ String.mk p
    | none => fallback
  else if listContainsSub "bitbucket.org".toList l then
    match extractHostPath "bitbucket.org".toList l with
    | some p => "bitbucket.org/" ++ String.mk p
    | none => fallback
  else fallback

/-- Embeds `ProjectSwitchDetector._build_reason_string(switch_type, details)`. -/
def buildReasonString : SwitchInfo → String
  | .directory _ _ fromProj toProj => "Switched projects: " ++ fromProj ++ " -> " ++ toProj
  | .remote fromRemote toRemote _ =>
    "Changed git remote: " ++ shortenRemoteUrl fromRemote ++ " -> " ++ shortenRemoteUrl toRemote
  | .branch fromBranch toBranch projectName =>
    "Switched branch in " ++ projectName ++ ": " ++ fromBranch ++ " -> " ++ toBranch

/-- Embeds `ProjectSwitchDetector._calculate_confidence(switch_type, current_project)`
(the `else: 0.70` default of the source is unreachable — `_build_trigger_result`
is only called with one of the three switch types). -/
def projectConfidence (info : SwitchInfo) (cur : Project) : ℚ :=
  let c : ℚ :=
    match info with
    | .directory .. => 0.95
    | .remote .. => 0.90
    | .branch .. => 0.75
  if cur.git_remote_url.getD "" ≠ "" then min 1 (c + 0.05) else c

/-- Embeds `ProjectSwitchDetector._build_trigger_result(...)`. -/
def buildProjectTrigger (cur : Project) (info : SwitchInfo) : TriggerResult :=
  { triggered := true
    confidence := projectConfidence info cur
    estimated_tokens := 200
    query_type := "project_context"
    query_params := .projectContext (cur.name.getD "Unknown") (cur.absolute_path.getD "")
      (cur.git_remote_url.getD "") (cur.git_branch.getD "") info.typeStr
    reason := buildReasonString info }

/-- Embeds `ProjectSwitchDetector.evaluate(prompt, context)`: `curOpt` is
`context.get('current_project')`, `active` the tracker's
`get_active_project()` answer.  Returns the optional trigger (tracker updates
are writes to the external collaborator and are not part of the result). -/
def projectEvaluate (resolve : String → String) (cfg : ProjectCfg)
    (active : Option ActiveState) (curOpt : Option Project) : Option TriggerResult :=
  match curOpt with
  | none => none
  | some cur =>
    match active with
    | none => none
    | some st =>
      match st.project with
      | none => none
      | some prev =>
        match detectSwitchType resolve cfg cur prev with
        | none => none
        | some info => some (buildProjectTrigger cur info)

end Detectors

namespace MemCache

/-! ### Lemmas about the ordered-map primitives -/

theorem lookupKey_eq_none_of_not_mem {β : Type} {k : String} :
    ∀ {l : List (String × β)}, k ∉ l.map Prod.fst → lookupKey k l = none := by
  intro l
  induction l with
  | nil => intro _; rfl
  | cons p rest ih =>
    intro hmem
    simp only [List.map_cons, List.mem_cons] at hmem
    push_neg at hmem
    simp only [lookupKey]
    rw [if_neg (fun he => hmem.1 he.symm)]
    exact ih hmem.2

theorem lookupKey_eraseKey_self {β : Type} {k : String} :
    ∀ {l : List (String × β)}, (l.map Prod.fst).Nodup →
      lookupKey k (eraseKey k l) = none := by
  intro l
  induction l with
  | nil => intro _; rfl
  | cons p rest ih =>
    intro hnd
    simp only [List.map_cons, List.nodup_cons] at hnd
    simp only [eraseKey]
    by_cases he : p.1 = k
    · rw [if_pos he]
      exact lookupKey_eq_none_of_not_mem (he ▸ hnd.1)
    · rw [if_neg he]
      simp only [lookupKey]
      rw [if_neg he]
      exact ih hnd.2

theorem lookupKey_eraseKey_ne {β : Type} {k k' : String} (hne : k' ≠ k) :
    ∀ {l : List (String × β)}, lookupKey k' (eraseKey k l) = lookupKey k' l := by
  intro l
  induction l with
  | nil => rfl
  | cons p rest ih =>
    simp only [eraseKey]
    by_cases he : p.1 = k
    · rw [if_pos he]
      have hpk : ¬ p.1 = k' := by rw [he]; exact fun hh => hne hh.symm
      conv_rhs => rw [lookupKey]
      rw [if_neg hpk]
    · rw [if_neg he]
      simp only [lookupKey]
      by_cases he' : p.1 = k'
      · rw [if_pos he', if_pos he']
      · rw [if_neg he', if_neg he']
        exact ih

theorem filter_ne_eq_self_of_not_mem {β : Type} {k : String} :
    ∀ {l : List (String × β)}, k ∉ l.map Prod.fst →
      l.filter (fun p => decide (p.1 ≠ k)) = l := by
  intro l
  induction l with
  | nil => intro _; rfl
  | cons p rest ih =>
    intro hmem
    simp only [List.map_cons, List.mem_cons] at hmem
    push_neg at hmem
    have hne : p.1 ≠ k := fun he => hmem.1 he.symm
    simp only [List.filter_cons]
    have hd : decide (p.1 ≠ k) = true := by simp [hne]
    rw [hd]
    simp only [if_true]
    rw [ih hmem.2]

theorem eraseKey_eq_filter {β : Type} {k : String} :
    ∀ {l : List (String × β)}, (l.map Prod.fst).Nodup →
      eraseKey k l = l.filter (fun p => decide (p.1 ≠ k)) := by
  intro l
  induction l with
  | nil => intro _; rfl
  | cons p rest ih =>
    intro hnd
    simp only [List.map_cons, List.nodup_cons] at hnd
    simp only [eraseKey, List.filter_cons]
    by_cases he : p.1 = k
    · rw [if_pos he]
      have hd : (decide (p.1 ≠ k)) = false := by simp [he]
      rw [hd]
      simp only [Bool.false_eq_true, if_false]
      exact (filter_ne_eq_self_of_not_mem (he ▸ hnd.1)).symm
    · rw [if_neg he]
      have : (decide (p.1 ≠ k)) = true := by simp [he]
      rw [this]
      simp only [if_true]
      rw [ih hnd.2]

theorem length_eraseKey_of_contains {β : Type} {k : String} :
    ∀ {l : List (String × β)}, containsKey k l = true →
      (eraseKey k l).length + 1 = l.length := by
  intro l
  induction l with
  | nil => intro hc; simp [containsKey, lookupKey] at hc
  | cons p rest ih =>
    intro hc
    simp only [eraseKey]
    by_cases he : p.1 = k
    · rw [if_pos he]; simp
    · rw [if_neg he]
      simp only [containsKey, lookupKey] at hc
      rw [if_neg he] at hc
      have := ih hc
      simp only [List.length_cons]
      omega

theorem containsKey_iff_mem {β : Type} {k : String} :
    ∀ {l : List (String × β)}, containsKey k l = true ↔ k ∈ l.map Prod.fst := by
  intro l
  induction l with
  | nil => simp [containsKey, lookupKey]
  | cons p rest ih =>
    simp only [containsKey, lookupKey, List.map_cons, List.mem_cons]
    by_cases he : p.1 = k
    · rw [if_pos he]
      simp [he.symm]
    · rw [if_neg he]
      constructor
      · intro hc
        exact Or.inr (ih.1 hc)
      · intro hor
        rcases hor with he' | hm
        · exact absurd he'.symm he
        · exact ih.2 hm

theorem lookupKey_append_singleton_ne {β : Type} {k k' : String} (hne : k ≠ k') (v : β) :
    ∀ {l : List (String × β)}, lookupKey k (l ++ [(k', v)]) = lookupKey k l := by
  intro l
  induction l with
  | nil =>
    simp only [List.nil_append, lookupKey]
    rw [if_neg (Ne.symm hne)]
  | cons p rest ih =>
    simp only [List.cons_append, lookupKey]
    by_cases he : p.1 = k
    · rw [if_pos he, if_pos he]
    · rw [if_neg he, if_neg he]
      exact ih

theorem getLast?_append_singleton {β : Type} (x : β) (l : List β) :
    (l ++ [x]).getLast? = some x :=
  List.getLast?_concat l

theorem evictLRU_length_le {β : Type} (m : ℕ) :
    ∀ (l : List (String × β)), (evictLRU m l).length ≤ m := by
  intro l
  induction l with
  | nil => simp [evictLRU]
  | cons x rest ih =>
    simp only [evictLRU]
    by_cases hlen : (x :: rest).length > m
    · rw [if_pos hlen]; exact ih
    · rw [if_neg hlen]; omega

theorem evictLRU_of_le {β : Type} {m : ℕ} :
    ∀ {l : List (String × β)}, l.length ≤ m → evictLRU m l = l := by
  intro l hle
  cases l with
  | nil => rfl
  | cons x rest =>
    simp only [evictLRU]
    rw [if_neg (by omega)]

end MemCache

namespace MemCache

theorem containsKey_eq_false_of_not_mem {β : Type} {k : String} {l : List (String × β)}
    (hnm : k ∉ l.map Prod.fst) : containsKey k l = false := by
  cases hc : containsKey k l
  · rfl
  · exact absurd (containsKey_iff_mem.1 hc) hnm

/-- Lemma: `cache_query_result` on a key not yet present performs no erase step, appends at
the MRU end, then the eviction loop. -/
theorem cacheQueryResult_fresh {α : Type} (h : String → String) (m : ℕ) (now : ℚ)
    (q : String) (r : α) (ttlOpt : Option ℚ) (s : CacheState α) (d : Disk α)
    (hq : containsKey (h q) s.query_cache = false) :
    (cacheQueryResult h m now q r ttlOpt s d).1.query_cache =
      evictLRU m (s.query_cache ++
        [(h q, ⟨r, now, ttlOpt.getD QUERY_CACHE_TTL, q⟩)]) := by
  unfold cacheQueryResult
  simp [hq]

end MemCache

section ClaimC1

open MemCache

/-- C1.  For every query `q` whose (hashed) key is bound in the query map to an
entry `e`, a `get_cached_query(q)` at a time strictly after
`e.timestamp + e.ttl_seconds` returns absent, removes that binding from the
map and persists the removal; at or before that bound it returns the cached
result and moves the binding to the most-recently-used (tail) position. -/
theorem C1_query_ttl {α : Type} (h : String → String) (q : String)
    (s : CacheState α) (d : Disk α) (e : QueryEntry α)
    (hlook : lookupKey (h q) s.query_cache = some e)
    (hnodup : (s.query_cache.map Prod.fst).Nodup) :
    (∀ now : ℚ, now > e.timestamp + e.ttl_seconds →
      getCachedQuery h now q s d =
        (none, { s with query_cache := eraseKey (h q) s.query_cache },
          some { s with query_cache := eraseKey (h q) s.query_cache }) ∧
      lookupKey (h q) (eraseKey (h q) s.query_cache) = none) ∧
    (∀ now : ℚ, now ≤ e.timestamp + e.ttl_seconds →
      getCachedQuery h now q s d =
        (some e.result,
          { s with query_cache := eraseKey (h q) s.query_cache ++ [(h q, e)] }, d) ∧
      (eraseKey (h q) s.query_cache ++ [(h q, e)]).getLast? = some (h q, e)) := by
  constructor
  · intro now hnow
    constructor
    · simp [getCachedQuery, hlook, hnow]
    · exact lookupKey_eraseKey_self hnodup
  · intro now hnow
    constructor
    · simp [getCachedQuery, hlook, moveToEnd, not_lt.mpr hnow]
    · exact getLast?_append_singleton _ _

/-- C1, instantiated: one entry cached at time 0 with TTL 600; a read at time
601 misses, a read at time 300 hits. -/
theorem C1_query_ttl_witness :
    (getCachedQuery (fun x => x) 601 "q"
      (⟨⟨[], none, 300⟩, [("q", ⟨7, 0, 600, "q"⟩)]⟩ : CacheState ℕ) none).1 = none ∧
    (getCachedQuery (fun x => x) 300 "q"
      (⟨⟨[], none, 300⟩, [("q", ⟨7, 0, 600, "q"⟩)]⟩ : CacheState ℕ) none).1 = some 7 := by
  have hc := C1_query_ttl (fun x => x) "q"
    (⟨⟨[], none, 300⟩, [("q", ⟨7, 0, 600, "q"⟩)]⟩ : CacheState ℕ) none
    ⟨7, 0, 600, "q"⟩ (by decide) (by decide)
  constructor
  · rw [(hc.1 601 (by norm_num)).1]
  · rw [(hc.2 300 (by norm_num)).1]

end ClaimC1

section ClaimC2

open MemCache

/-- C2.  (i) The default bound is 100 and after any `cache_query_result` call
the query map's size is within the `maxSize` in effect; (ii) with `maxSize = 3`,
inserting five distinct-hashing queries `q0..q4` in order with no intervening
reads leaves exactly the keys of `q2, q3, q4` (in LRU-to-MRU order) — `q0, q1`
are evicted; (iii) with `maxSize = 3`, after inserting `q0, q1, q2` a
`get_cached_query(q0)` hit followed by inserting `q3` evicts the untouched
older entry `q1` and keeps the promoted `q0`. -/
theorem C2_lru_eviction :
    MAX_QUERY_CACHE_SIZE = 100 ∧
    (∀ (α : Type) (h : String → String) (maxSize : ℕ) (now : ℚ) (q : String) (r : α)
        (ttlOpt : Option ℚ) (s : CacheState α) (d : Disk α),
        ((cacheQueryResult h maxSize now q r ttlOpt s d).1.query_cache).length ≤ maxSize) ∧
    (∀ (h : String → String) (q0 q1 q2 q3 q4 : String) (r0 r1 r2 r3 r4 : ℕ) (now : ℚ),
        ([h q0, h q1, h q2, h q3, h q4] : List String).Pairwise (· ≠ ·) →
        ((([(q0, r0), (q1, r1), (q2, r2), (q3, r3), (q4, r4)] : List (String × ℕ)).foldl
            (fun sd qr => cacheQueryResult h 3 now qr.1 qr.2 none sd.1 sd.2)
            (initialCacheState ℕ, none)).1.query_cache.map Prod.fst =
          [h q2, h q3, h q4])) ∧
    (∀ (h : String → String) (q0 q1 q2 q3 : String) (r0 r1 r2 r3 : ℕ) (now : ℚ),
        ([h q0, h q1, h q2, h q3] : List String).Pairwise (· ≠ ·) →
        (let afterInserts :=
          (([(q0, r0), (q1, r1), (q2, r2)] : List (String × ℕ)).foldl
            (fun sd qr => cacheQueryResult h 3 now qr.1 qr.2 none sd.1 sd.2)
            (initialCacheState ℕ, none))
         let afterRead := getCachedQuery h now q0 afterInserts.1 afterInserts.2
         (afterRead.1 = some r0 ∧
          (cacheQueryResult h 3 now q3 r3 none afterRead.2.1 afterRead.2.2).1.query_cache.map
            Prod.fst = [h q2, h q0, h q3]))) := by
  refine ⟨rfl, ?_, ?_, ?_⟩
  · intro α h maxSize now q r ttlOpt s d
    unfold cacheQueryResult
    exact evictLRU_length_le maxSize _
  · intro h q0 q1 q2 q3 q4 r0 r1 r2 r3 r4 now hp
    simp only [List.pairwise_cons, List.mem_cons, List.mem_singleton,
      List.not_mem_nil, List.Pairwise.nil] at hp
    have h01 : h q0 ≠ h q1 := fun he => hp.1 (h q1) (Or.inl rfl) he
    have h02 : h q0 ≠ h q2 := fun he => hp.1 (h q2) (Or.inr (Or.inl rfl)) he
    have h03 : h q0 ≠ h q3 := fun he => hp.1 (h q3) (Or.inr (Or.inr (Or.inl rfl))) he
    have h04 : h q0 ≠ h q4 := fun he => hp.1 (h q4) (Or.inr (Or.inr (Or.inr (Or.inl rfl)))) he
    have h12 : h q1 ≠ h q2 := fun he => hp.2.1 (h q2) (Or.inl rfl) he
    have h13 : h q1 ≠ h q3 := fun he => hp.2.1 (h q3) (Or.inr (Or.inl rfl)) he
    have h14 : h q1 ≠ h q4 := fun he => hp.2.1 (h q4) (Or.inr (Or.inr (Or.inl rfl))) he
    have h23 : h q2 ≠ h q3 := fun he => hp.2.2.1 (h q3) (Or.inl rfl) he
    have h24 : h q2 ≠ h q4 := fun he => hp.2.2.1 (h q4) (Or.inr (Or.inl rfl)) he
    have h34 : h q3 ≠ h q4 := fun he => hp.2.2.2.1 (h q4) (Or.inl rfl) he
    simp only [List.foldl]
    set S0 := cacheQueryResult h 3 now q0 r0 none (initialCacheState ℕ) none with hS0
    have key0 : S0.1.query_cache = [(h q0, ⟨r0, now, QUERY_CACHE_TTL, q0⟩)] := by
      rw [hS0, cacheQueryResult_fresh _ _ _ _ _ _ _ _
        (by simp [initialCacheState, containsKey, lookupKey])]
      simp [initialCacheState, evictLRU, Option.getD]
    set S1 := cacheQueryResult h 3 now q1 r1 none S0.1 S0.2 with hS1
    have key1 : S1.1.query_cache =
        [(h q0, ⟨r0, now, QUERY_CACHE_TTL, q0⟩), (h q1, ⟨r1, now, QUERY_CACHE_TTL, q1⟩)] := by
      rw [hS1, cacheQueryResult_fresh _ _ _ _ _ _ _ _
        (by rw [key0]; exact containsKey_eq_false_of_not_mem (by simp [h01.symm]))]
      rw [key0]
      simp [evictLRU, Option.getD]
    set S2 := cacheQueryResult h 3 now q2 r2 none S1.1 S1.2 with hS2
    have key2 : S2.1.query_cache =
        [(h q0, ⟨r0, now, QUERY_CACHE_TTL, q0⟩), (h q1, ⟨r1, now, QUERY_CACHE_TTL, q1⟩),
         (h q2, ⟨r2, now, QUERY_CACHE_TTL, q2⟩)] := by
      rw [hS2, cacheQueryResult_fresh _ _ _ _ _ _ _ _
        (by rw [key1]; exact containsKey_eq_false_of_not_mem (by simp [h02.symm, h12.symm]))]
      rw [key1]
      simp [evictLRU, Option.getD]
    set S3 := cacheQueryResult h 3 now q3 r3 none S2.1 S2.2 with hS3
    have key3 : S3.1.query_cache =
        [(h q1, ⟨r1, now, QUERY_CACHE_TTL, q1⟩), (h q2, ⟨r2, now, QUERY_CACHE_TTL, q2⟩),
         (h q3, ⟨r3, now, QUERY_CACHE_TTL, q3⟩)] := by
      rw [hS3, cacheQueryResult_fresh _ _ _ _ _ _ _ _
        (by rw [key2]
            exact containsKey_eq_false_of_not_mem (by simp [h03.symm, h13.symm, h23.symm]))]
      rw [key2]
      simp [evictLRU, Option.getD]
    rw [cacheQueryResult_fresh _ _ _ _ _ _ _ _
      (by rw [key3]
          exact containsKey_eq_false_of_not_mem (by simp [h14.symm, h24.symm, h34.symm]))]
    rw [key3]
    simp [evictLRU, Option.getD]
  · intro h q0 q1 q2 q3 r0 r1 r2 r3 now hp
    simp only [List.pairwise_cons, List.mem_cons, List.mem_singleton,
      List.not_mem_nil, List.Pairwise.nil] at hp
    have h01 : h q0 ≠ h q1 := fun he => hp.1 (h q1) (Or.inl rfl) he
    have h02 : h q0 ≠ h q2 := fun he => hp.1 (h q2) (Or.inr (Or.inl rfl)) he
    have h03 : h q0 ≠ h q3 := fun he => hp.1 (h q3) (Or.inr (Or.inr (Or.inl rfl))) he
    have h12 : h q1 ≠ h q2 := fun he => hp.2.1 (h q2) (Or.inl rfl) he
    have h13 : h q1 ≠ h q3 := fun he => hp.2.1 (h q3) (Or.inr (Or.inl rfl)) he
    have h23 : h q2 ≠ h q3 := fun he => hp.2.2.1 (h q3) (Or.inl rfl) he
    have hnoexp : ¬ (now > now + QUERY_CACHE_TTL) := by
      unfold QUERY_CACHE_TTL
      intro hcon
      linarith
    simp only [List.foldl]
    set S0 := cacheQueryResult h 3 now q0 r0 none (initialCacheState ℕ) none with hS0
    have key0 : S0.1.query_cache = [(h q0, ⟨r0, now, QUERY_CACHE_TTL, q0⟩)] := by
      rw [hS0, cacheQueryResult_fresh _ _ _ _ _ _ _ _
        (by simp [initialCacheState, containsKey, lookupKey])]
      simp [initialCacheState, evictLRU, Option.getD]
    set S1 := cacheQueryResult h 3 now q1 r1 none S0.1 S0.2 with hS1
    have key1 : S1.1.query_cache =
        [(h q0, ⟨r0, now, QUERY_CACHE_TTL, q0⟩), (h q1, ⟨r1, now, QUERY_CACHE_TTL, q1⟩)] := by
      rw [hS1, cacheQueryResult_fresh _ _ _ _ _ _ _ _
        (by rw [key0]; exact containsKey_eq_false_of_not_mem (by simp [h01.symm]))]
      rw [key0]
      simp [evictLRU, Option.getD]
    set S2 := cacheQueryResult h 3 now q2 r2 none S1.1 S1.2 with hS2
    have key2 : S2.1.query_cache =
        [(h q0, ⟨r0, now, QUERY_CACHE_TTL, q0⟩), (h q1, ⟨r1, now, QUERY_CACHE_TTL, q1⟩),
         (h q2, ⟨r2, now, QUERY_CACHE_TTL, q2⟩)] := by
      rw [hS2, cacheQueryResult_fresh _ _ _ _ _ _ _ _
        (by rw [key1]; exact containsKey_eq_false_of_not_mem (by simp [h02.symm, h12.symm]))]
      rw [key1]
      simp [evictLRU, Option.getD]
    have hread : getCachedQuery h now q0 S2.1 S2.2 =
        (some r0,
         { S2.1 with query_cache :=
            [(h q1, ⟨r1, now, QUERY_CACHE_TTL, q1⟩), (h q2, ⟨r2, now, QUERY_CACHE_TTL, q2⟩),
             (h q0, ⟨r0, now, QUERY_CACHE_TTL, q0⟩)] }, S2.2) := by
      simp [getCachedQuery, moveToEnd, lookupKey, eraseKey, hnoexp, key2,
        h01.symm, h02.symm]
    refine ⟨by rw [hread], ?_⟩
    rw [hread]
    rw [cacheQueryResult_fresh _ _ _ _ _ _ _ _
      (containsKey_eq_false_of_not_mem (by simp [h13.symm, h23.symm, h03.symm]))]
    simp [evictLRU, Option.getD]
/-- C2, instantiated: identity hash, queries `"q0".."q4"`, bound 3 — exactly
`q2, q3, q4` remain; and a promoted `q0` survives the insert of `q3` while the
untouched `q1` is evicted. -/
theorem C2_lru_eviction_witness :
    ((([("q0", 0), ("q1", 1), ("q2", 2), ("q3", 3), ("q4", 4)] : List (String × ℕ)).foldl
        (fun sd qr => cacheQueryResult (fun x => x) 3 0 qr.1 qr.2 none sd.1 sd.2)
        (initialCacheState ℕ, none)).1.query_cache.map Prod.fst = ["q2", "q3", "q4"]) ∧
    (let afterInserts :=
      (([("q0", 0), ("q1", 1), ("q2", 2)] : List (String × ℕ)).foldl
        (fun sd qr => cacheQueryResult (fun x => x) 3 0 qr.1 qr.2 none sd.1 sd.2)
        (initialCacheState ℕ, none))
     let afterRead := getCachedQuery (fun x => x) 0 "q0" afterInserts.1 afterInserts.2
     (afterRead.1 = some 0 ∧
      (cacheQueryResult (fun x => x) 3 0 "q3" 3 none afterRead.2.1
          afterRead.2.2).1.query_cache.map Prod.fst = ["q2", "q0", "q3"])) := by
  constructor
  · exact C2_lru_eviction.2.2.1 (fun x => x) "q0" "q1" "q2" "q3" "q4" 0 1 2 3 4 0 (by decide)
  · exact C2_lru_eviction.2.2.2 (fun x => x) "q0" "q1" "q2" "q3" 0 1 2 3 0 (by decide)

end ClaimC2

namespace MemCache

theorem lookupKey_append_of_none {β : Type} {k : String} {l l' : List (String × β)}
    (hnone : lookupKey k l = none) : lookupKey k (l ++ l') = lookupKey k l' := by
  induction l with
  | nil => rfl
  | cons p rest ih =>
    simp only [lookupKey] at hnone
    by_cases he : p.1 = k
    · rw [if_pos he] at hnone
      cases hnone
    · rw [if_neg he] at hnone
      simp only [List.cons_append, lookupKey]
      rw [if_neg he]
      exact ih hnone

end MemCache

section ClaimC10

open MemCache

/-- C10.  Re-inserting an already-present key into a map within its size budget
evicts nothing: the new map is the old one with only that binding removed from
its old position and re-appended (new entry) at the MRU end — every other key
keeps its entry and relative order, and the result is findable at the tail. -/
theorem C10_update_frame {α : Type} (h : String → String) (maxSize : ℕ) (now : ℚ)
    (q : String) (r' : α) (ttlOpt : Option ℚ) (s : CacheState α) (d : Disk α)
    (hc : containsKey (h q) s.query_cache = true)
    (hlen : s.query_cache.length ≤ maxSize)
    (hnodup : (s.query_cache.map Prod.fst).Nodup) :
    (cacheQueryResult h maxSize now q r' ttlOpt s d).1.query_cache =
      s.query_cache.filter (fun p => decide (p.1 ≠ h q)) ++
        [(h q, ⟨r', now, ttlOpt.getD QUERY_CACHE_TTL, q⟩)] ∧
    (∀ k, k ≠ h q →
      lookupKey k (cacheQueryResult h maxSize now q r' ttlOpt s d).1.query_cache =
        lookupKey k s.query_cache) ∧
    lookupKey (h q) (cacheQueryResult h maxSize now q r' ttlOpt s d).1.query_cache =
      some ⟨r', now, ttlOpt.getD QUERY_CACHE_TTL, q⟩ ∧
    ((cacheQueryResult h maxSize now q r' ttlOpt s d).1.query_cache).getLast? =
      some (h q, ⟨r', now, ttlOpt.getD QUERY_CACHE_TTL, q⟩) := by
  have hqc : (cacheQueryResult h maxSize now q r' ttlOpt s d).1.query_cache =
      eraseKey (h q) s.query_cache ++
        [(h q, ⟨r', now, ttlOpt.getD QUERY_CACHE_TTL, q⟩)] := by
    unfold cacheQueryResult
    simp only [hc, if_true]
    apply evictLRU_of_le
    rw [List.length_append]
    have := length_eraseKey_of_contains hc
    simp only [List.length_singleton]
    omega
  refine ⟨?_, ?_, ?_, ?_⟩
  · rw [hqc, eraseKey_eq_filter hnodup]
  · intro k hk
    rw [hqc, lookupKey_append_singleton_ne hk, lookupKey_eraseKey_ne hk]
  · rw [hqc, lookupKey_append_of_none (lookupKey_eraseKey_self hnodup)]
    simp [lookupKey]
  · rw [hqc]
    exact getLast?_append_singleton _ _

/-- C10, instantiated: a two-entry map of size ≤ 3; re-inserting the second
key replaces it in place at the tail and leaves the first entry untouched. -/
theorem C10_update_frame_witness :
    (cacheQueryResult (fun x => x) 3 50 "q" 9 none
      (⟨⟨[], none, 300⟩, [("a", ⟨1, 0, 600, "a"⟩), ("q", ⟨2, 0, 600, "q"⟩)]⟩ : CacheState ℕ)
      none).1.query_cache =
      [("a", ⟨1, 0, 600, "a"⟩), ("q", ⟨9, 50, 600, "q"⟩)] := by
  rw [(C10_update_frame (fun x => x) 3 50 "q" 9 none
    (⟨⟨[], none, 300⟩, [("a", ⟨1, 0, 600, "a"⟩), ("q", ⟨2, 0, 600, "q"⟩)]⟩ : CacheState ℕ)
    none (by decide) (by decide) (by decide)).1]
  decide

end ClaimC10

section ClaimC9

open MemCache

/-- Lemma: `get_entity_names(None)` never attempts a refresh: it returns the slot's
current data. -/
theorem getEntityNames_no_client (now : ℚ) (force : Bool) (slot : EntityNamesSlot) :
    getEntityNames now none force slot = .val slot.data := by
  unfold getEntityNames
  rfl

/-- C9.  `cache_entity_names(names)` followed by constructing a fresh cache
instance against the produced disk state yields `get_entity_names(None)` equal
to `names` (the fresh instance's load-time `clear_expired` runs within the
entity TTL). -/
theorem C9_persistence_roundtrip {α : Type} (names : List String) (s : CacheState α)
    (d : Disk α) (t₁ t₂ t₃ : ℚ)
    (hload : t₂ ≤ t₁ + ENTITY_NAMES_TTL) :
    getEntityNames t₃ none false
      (newInstance α t₂ (cacheEntityNames t₁ names s d).2).1.entity_names = .val names := by
  have hslot : (newInstance α t₂ (cacheEntityNames t₁ names s d).2).1.entity_names =
      ⟨names, some t₁, ENTITY_NAMES_TTL⟩ := by
    unfold cacheEntityNames newInstance clearExpired
    simp only [not_lt.mpr hload, gt_iff_lt, if_false]
    split <;> rfl
  rw [hslot, getEntityNames_no_client]

/-- C9, instantiated: `["A", "B"]` cached at time 0 survives a reload at time
100 and is returned by a client-less read at time 1000. -/
theorem C9_persistence_roundtrip_witness :
    getEntityNames 1000 none false
      (newInstance ℕ 100 (cacheEntityNames 0 ["A", "B"] (initialCacheState ℕ) none).2).1.entity_names =
      .val ["A", "B"] :=
  C9_persistence_roundtrip ["A", "B"] (initialCacheState ℕ) none 0 100 1000 (by norm_num [ENTITY_NAMES_TTL])

end ClaimC9

section ClaimC3

open MemCache

/-- C3, amended.  (i) `get_entity_names` raises exactly when a refresh is
needed, the client's refresh fails, and the currently stored data is the EMPTY
list (the source tests `if entity_cache["data"]:`, i.e. non-emptiness — not
whether a previous refresh happened); (ii) when a refresh is needed, the
client fails and the stored data is non-empty, the stale data is returned. -/
theorem C3_stale_fallback (now : ℚ) (client : Option RefreshOutcome) (force : Bool)
    (slot : EntityNamesSlot) :
    (getEntityNames now client force slot = .raise ↔
      ((force = true ∨ slot.last_refresh = none ∨
          (∃ lr, slot.last_refresh = some lr ∧ now > lr + slot.ttl_seconds)) ∧
        client = some .err ∧ slot.data = [])) ∧
    ((force = true ∨ slot.last_refresh = none ∨
        (∃ lr, slot.last_refresh = some lr ∧ now > lr + slot.ttl_seconds)) →
      client = some .err → slot.data ≠ [] →
      getEntityNames now client force slot = .val slot.data) := by
  obtain ⟨data, lrOpt, ttl⟩ := slot
  rcases lrOpt with _ | lr
  · -- no previous refresh timestamp: needs_refresh holds
    rcases client with _ | oc
    · simp [getEntityNames]
    · cases oc with
      | ok ns =>
        constructor
        · simp [getEntityNames]
        · intro _ hcl
          simp at hcl
      | err =>
        by_cases hd : data = []
        · subst hd
          simp [getEntityNames]
        · simp [getEntityNames, hd]
  · -- a previous refresh exists: needs_refresh iff force or TTL elapsed
    by_cases hf : force = true
    · subst hf
      rcases client with _ | oc
      · simp [getEntityNames]
      · cases oc with
        | ok ns =>
          constructor
          · simp [getEntityNames]
          · intro _ hcl
            simp at hcl
        | err =>
          by_cases hd : data = []
          · subst hd
            simp [getEntityNames]
          · simp [getEntityNames, hd]
    · have hf' : force = false := by
        cases force
        · rfl
        · exact absurd rfl hf
      subst hf'
      by_cases ht : now > lr + ttl
      · rcases client with _ | oc
        · simp [getEntityNames, ht]
        · cases oc with
          | ok ns =>
            constructor
            · simp [getEntityNames, ht]
            · intro _ hcl
              simp at hcl
          | err =>
            by_cases hd : data = []
            · subst hd
              simp [getEntityNames, ht]
            · simp [getEntityNames, ht, hd]
      · -- cache still valid: no refresh, no raise
        constructor
        · simp [getEntityNames, ht]
        · intro hneeds
          rcases hneeds with hfo | hnone | ⟨lr', hlr', ht'⟩
          · simp at hfo
          · simp at hnone
          · simp only [Option.some.injEq] at hlr'
            subst hlr'
            exact absurd ht' ht

/-- C3, counterexample to the claim as stated: a previous refresh HAS happened
(`last_refresh = some 0`) but it stored the empty list; when the TTL has
elapsed and the refresh client fails, the call raises instead of returning the
previously stored (empty) value. -/
theorem C3_stale_fallback_counterexample :
    (⟨[], some 0, 300⟩ : EntityNamesSlot).last_refresh ≠ none ∧
    getEntityNames 301 (some .err) false ⟨[], some 0, 300⟩ = .raise := by
  constructor
  · simp
  · with_unfolding_all decide

/-- C3 amended, instantiated: stale non-empty data `["Old"]` is returned when
the refresh fails after TTL expiry; the all-raise characterization holds at
the empty-data instance. -/
theorem C3_stale_fallback_witness :
    getEntityNames 301 (some .err) false ⟨["Old"], some 0, 300⟩ = .val ["Old"] ∧
    getEntityNames 301 (some .err) false ⟨[], some 0, 300⟩ = .raise := by
  constructor
  · exact (C3_stale_fallback 301 (some .err) false ⟨["Old"], some 0, 300⟩).2
      (Or.inr (Or.inr ⟨0, rfl, by norm_num⟩)) rfl (by simp)
  · exact (C3_stale_fallback 301 (some .err) false ⟨[], some 0, 300⟩).1.2
      ⟨Or.inr (Or.inr ⟨0, rfl, by norm_num⟩), rfl, rfl⟩

end ClaimC3

section ClaimC4

open MemCache

/-- C4 (code bug).  When a refresh is needed, a client is supplied and the
refresh callback succeeds, `get_entity_names` does NOT store the fresh list
and return it: it calls `self.cache_entity_names(...)` while still holding the
non-reentrant `threading.Lock` it acquired on entry, and blocks forever.
Evaluated here both on a never-refreshed slot and on an expired one.
(Even with a reentrant lock the final `return entity_cache["data"]` would
return the pre-refresh dict's data, because the local `entity_cache` still
aliases the replaced dict.) -/
theorem C4_refresh_success_deadlocks :
    getEntityNames 0 (some (.ok ["X"])) false (initialCacheState ℕ).entity_names =
      .deadlock ∧
    getEntityNames 301 (some (.ok ["X"])) false ⟨["Old"], some 0, 300⟩ = .deadlock ∧
    getEntityNames 0 (some (.ok ["X"])) true ⟨["Old"], some 0, 300⟩ = .deadlock := by
  refine ⟨by decide, ?_, by decide⟩
  with_unfolding_all decide

end ClaimC4

namespace Detectors

theorem countFires_cons (thr : ℤ) (tr : TriggerResult) (l : List TriggerResult) :
    countFires thr (tr :: l) =
      (if tr.query_params.thresholdOf = some thr then 1 else 0) + countFires thr l := by
  by_cases hc : tr.query_params.thresholdOf = some thr
  · simp [countFires, List.filter_cons, hc, Nat.add_comm]
  · simp [countFires, List.filter_cons, hc]

theorem ttdEvaluate_nonpos {s : TokenThresholdState} {c : ℤ} (hc : c ≤ 0) :
    ttdEvaluate s c = (none, s) := by
  simp [ttdEvaluate, hc]

theorem ttdEvaluate_nofire {s : TokenThresholdState} {c : ℤ} (hc : ¬ c ≤ 0)
    (hf : firstCrossed s.triggered c s.thresholds = none) :
    ttdEvaluate s c = (none, s) := by
  simp [ttdEvaluate, hc, hf]

theorem ttdEvaluate_fire {s : TokenThresholdState} {c t : ℤ} (hc : ¬ c ≤ 0)
    (hf : firstCrossed s.triggered c s.thresholds = some t) :
    ∃ tr, ttdEvaluate s c = (some tr, { s with triggered := t :: s.triggered }) ∧
      tr.query_params.thresholdOf = some t := by
  refine ⟨{ triggered := true
            confidence := ttdConfidence c t
            estimated_tokens := 175
            query_type := "threshold_check"
            query_params := .thresholdCheck t c ["pending", "incomplete", "TODO", "in progress"]
            reason := "Token count (" ++ commaFmt c ++ ") crossed threshold " ++ commaFmt t },
    ?_, ?_⟩
  · simp [ttdEvaluate, hc, hf]
  · simp [QueryParams.thresholdOf]

theorem firstCrossed_not_mem {trig : List ℤ} {c t : ℤ} :
    ∀ {ths : List ℤ}, firstCrossed trig c ths = some t → t ∉ trig := by
  intro ths
  induction ths with
  | nil => intro hf; simp [firstCrossed] at hf
  | cons t' rest ih =>
    intro hf
    simp only [firstCrossed] at hf
    by_cases hm : t' ∈ trig
    · rw [if_pos hm] at hf
      exact ih hf
    · rw [if_neg hm] at hf
      by_cases hge : c ≥ t'
      · rw [if_pos hge] at hf
        injection hf with he
        subst he
        exact hm
      · rw [if_neg hge] at hf
        exact ih hf

theorem countFires_zero_of_mem (thr : ℤ) :
    ∀ (calls : List ℤ) (s : TokenThresholdState), thr ∈ s.triggered →
      countFires thr (runTTD s calls) = 0 := by
  intro calls
  induction calls with
  | nil => intro s _; rfl
  | cons c cs ih =>
    intro s hmem
    by_cases hc : c ≤ 0
    · simp only [runTTD, ttdEvaluate_nonpos hc]
      exact ih s hmem
    · cases hf : firstCrossed s.triggered c s.thresholds with
      | none =>
        simp only [runTTD, ttdEvaluate_nofire hc hf]
        exact ih s hmem
      | some t =>
        obtain ⟨tr, heval, hparam⟩ := ttdEvaluate_fire hc hf
        simp only [runTTD, heval]
        rw [countFires_cons]
        have hne : tr.query_params.thresholdOf ≠ some thr := by
          rw [hparam]
          intro hcon
          injection hcon with he
          exact firstCrossed_not_mem hf (he ▸ hmem)
        rw [if_neg hne]
        simp only [Nat.zero_add]
        exact ih _ (List.mem_cons_of_mem _ hmem)

theorem countFires_le_one (thr : ℤ) :
    ∀ (calls : List ℤ) (s : TokenThresholdState), countFires thr (runTTD s calls) ≤ 1 := by
  intro calls
  induction calls with
  | nil => intro s; simp [runTTD, countFires]
  | cons c cs ih =>
    intro s
    by_cases hc : c ≤ 0
    · simp only [runTTD, ttdEvaluate_nonpos hc]
      exact ih s
    · cases hf : firstCrossed s.triggered c s.thresholds with
      | none =>
        simp only [runTTD, ttdEvaluate_nofire hc hf]
        exact ih s
      | some t =>
        obtain ⟨tr, heval, hparam⟩ := ttdEvaluate_fire hc hf
        simp only [runTTD, heval]
        rw [countFires_cons]
        by_cases ht : tr.query_params.thresholdOf = some thr
        · rw [if_pos ht]
          have hthr : thr = t := by
            rw [hparam] at ht
            injection ht with he
            exact he.symm
          subst hthr
          have hz : countFires thr (runTTD { s with triggered := thr :: s.triggered } cs) = 0 :=
            countFires_zero_of_mem thr cs _ (List.mem_cons_self _ _)
          omega
        · rw [if_neg ht]
          simp only [Nat.zero_add]
          exact ih _

end Detectors

section ClaimC5

open MemCache Detectors

/-- C5.  (i) Over any sequence of `evaluate` calls on any detector state with
no intervening reset, each threshold value appears in a returned trigger's
`query_params.threshold` at most once; (ii) with thresholds
`[100000, 150000]`: `evaluate(100000)` fires threshold 100000, an immediately
following `evaluate(105000)` is absent, `evaluate(150000)` fires threshold
150000, and after `reset_state()` an `evaluate(100000)` fires threshold
100000 again. -/
theorem C5_token_threshold_one_shot :
    (∀ (s : TokenThresholdState) (calls : List ℤ) (thr : ℤ),
        countFires thr (runTTD s calls) ≤ 1) ∧
    (let s0 := ttdInit (some [100000, 150000])
     let e1 := ttdEvaluate s0 100000
     let e2 := ttdEvaluate e1.2 105000
     let e3 := ttdEvaluate e2.2 150000
     let e4 := ttdEvaluate (ttdResetState e3.2) 100000
     (e1.1.map (fun tr => tr.query_params.thresholdOf) = some (some 100000)) ∧
     e2.1 = none ∧
     (e3.1.map (fun tr => tr.query_params.thresholdOf) = some (some 150000)) ∧
     (e4.1.map (fun tr => tr.query_params.thresholdOf) = some (some 100000))) := by
  refine ⟨fun s calls thr => countFires_le_one thr calls s, ?_⟩
  decide

end ClaimC5

section ClaimC6

open MemCache Detectors

/-- C6.  A prompt that looks like code — trimmed text starting with a fenced
code marker or indentation, or punctuation/bracket density above 0.3 — makes
both `KeywordDetector.evaluate` and `EntityMentionDetector.evaluate` return
absent, for every pattern configuration, cache state and prompt content. -/
theorem C6_code_block_suppression (patterns : List (String × List RePattern))
    (prompt : String) (cfg : EntityCfg) (now : ℚ) (client : Option RefreshOutcome)
    (slot : EntityNamesSlot) (hcb : isCodeBlock prompt = true) :
    keywordEvaluate patterns prompt = none ∧
    entityEvaluate cfg now client slot prompt = .res none := by
  constructor
  · unfold keywordEvaluate
    by_cases hl : (pyStrip prompt).toList.length < 5
    · rw [if_pos hl]
    · rw [if_neg hl, if_pos hcb]
  · unfold entityEvaluate
    by_cases hl : (pyStrip prompt).toList.length < 3
    · rw [if_pos hl]
    · rw [if_neg hl, if_pos hcb]

/-- C6, instantiated on a fenced-code prompt that would otherwise trigger
both detectors (a `memory` keyword and a cached entity name). -/
theorem C6_code_block_suppression_witness :
    isCodeBlock "```python remember UserManager" = true ∧
    keywordEvaluate [] "```python remember UserManager" = none ∧
    entityEvaluate defaultEntityCfg 0 none ⟨["UserManager"], some 0, 300⟩
      "```python remember UserManager" = .res none := by
  have h := C6_code_block_suppression [] "```python remember UserManager"
    defaultEntityCfg 0 none ⟨["UserManager"], some 0, 300⟩ (by decide)
  exact ⟨by decide, h.1, h.2⟩

end ClaimC6

section ClaimC7

open MemCache Detectors

/-- C7, counterexample to the claim as stated.  The two remote URLs differ
after the SPEC's normalization (`.git` suffix strip — neither URL carries the
suffix, so they stay distinct), the resolved paths are equal and both remotes
are non-empty, yet `evaluate` returns absent: the code's
`rstrip('.git')` strips the trailing `{'.', 'g', 'i', 't'}` characters of
both URLs down to the same string `https://example.com/toolin`. -/
theorem C7_remote_switch_counterexample :
    specNormalizeRemote "https://example.com/tooling" ≠
      specNormalizeRemote "https://example.com/toolin" ∧
    projectEvaluate id defaultProjectCfg
      (some { project := some { absolute_path := some "/p",
                                git_remote_url := some "https://example.com/toolin",
                                git_branch := some "main", name := some "B" } })
      (some { absolute_path := some "/p",
              git_remote_url := some "https://example.com/tooling",
              git_branch := some "main", name := some "A" }) = none :=
  ⟨by decide, by decide⟩

/-- C7, amended.  With equal resolved paths and both remotes non-empty,
`evaluate` returns a `remote` switch trigger with confidence
`0.90 + 0.05 = 0.95` exactly when the two URLs differ after the CODE's
normalization (trailing characters from the set `{'.', 'g', 'i', 't'}`
stripped, then `http://` replaced by `https://`); when they normalize equal
and no branch switch applies, it returns absent. -/
theorem C7_remote_switch (resolve : String → String) (cfg : ProjectCfg)
    (cur prev : Project)
    (hres : resolve (cur.absolute_path.getD "") = resolve (prev.absolute_path.getD ""))
    (hcr : cur.git_remote_url.getD "" ≠ "")
    (hpr : prev.git_remote_url.getD "" ≠ "") :
    ((codeNormalizeRemote (cur.git_remote_url.getD "") ≠
        codeNormalizeRemote (prev.git_remote_url.getD "")) →
      ∃ tr, projectEvaluate resolve cfg (some ⟨some prev⟩) (some cur) = some tr ∧
        tr.query_params.switchTypeOf = some "remote" ∧
        tr.confidence = 0.95 ∧
        tr.query_type = "project_context") ∧
    (codeNormalizeRemote (cur.git_remote_url.getD "") =
        codeNormalizeRemote (prev.git_remote_url.getD "") →
      ¬ (cfg.detect_branch_switch ∧ cur.git_branch.getD "" ≠ "" ∧
          prev.git_branch.getD "" ≠ "" ∧
          cur.git_branch.getD "" ≠ prev.git_branch.getD "" ∧
          (cur.git_branch.getD "" ∈ cfg.major_branches ∨
           prev.git_branch.getD "" ∈ cfg.major_branches)) →
      projectEvaluate resolve cfg (some ⟨some prev⟩) (some cur) = none) ∧
    (∀ tr, projectEvaluate resolve cfg (some ⟨some prev⟩) (some cur) = some tr →
      tr.query_params.switchTypeOf = some "remote" →
      codeNormalizeRemote (cur.git_remote_url.getD "") ≠
        codeNormalizeRemote (prev.git_remote_url.getD "")) := by
  have hdir : ¬ (cur.absolute_path.getD "" ≠ "" ∧ prev.absolute_path.getD "" ≠ "" ∧
      resolve (cur.absolute_path.getD "") ≠ resolve (prev.absolute_path.getD "")) := by
    rintro ⟨_, _, hne⟩
    exact hne hres
  refine ⟨?_, ?_, ?_⟩
  · intro hdiff
    refine ⟨buildProjectTrigger cur
      (SwitchInfo.remote (prev.git_remote_url.getD "") (cur.git_remote_url.getD "")
        (cur.name.getD "Unknown")), ?_, ?_, ?_, ?_⟩
    · simp only [projectEvaluate, detectSwitchType]
      rw [if_neg hdir, if_pos ⟨hcr, hpr, hdiff⟩]
    · simp [buildProjectTrigger, QueryParams.switchTypeOf, SwitchInfo.typeStr]
    · simp only [buildProjectTrigger, projectConfidence]
      rw [if_pos hcr, min_eq_right (by norm_num)]
      norm_num
    · rfl
  · intro heq hnb
    simp only [projectEvaluate, detectSwitchType]
    rw [if_neg hdir, if_neg (fun hcon => hcon.2.2 heq), if_neg hnb]
  · intro tr heval hst
    intro heq
    simp only [projectEvaluate, detectSwitchType] at heval
    rw [if_neg hdir, if_neg (fun hcon => hcon.2.2 heq)] at heval
    by_cases hb : (cfg.detect_branch_switch ∧ cur.git_branch.getD "" ≠ "" ∧
        prev.git_branch.getD "" ≠ "" ∧
        cur.git_branch.getD "" ≠ prev.git_branch.getD "" ∧
        (cur.git_branch.getD "" ∈ cfg.major_branches ∨
         prev.git_branch.getD "" ∈ cfg.major_branches))
    · rw [if_pos hb] at heval
      injection heval with he
      subst he
      simp [buildProjectTrigger, QueryParams.switchTypeOf, SwitchInfo.typeStr] at hst
    · rw [if_neg hb] at heval
      cases heval

/-- C7 amended, instantiated: same path, same branch, remotes
`.../a/x.git` vs `.../a/y.git`, which normalize to distinct URLs; the trigger
is a `remote` switch at confidence 0.95. -/
theorem C7_remote_switch_witness :
    ∃ tr, projectEvaluate id defaultProjectCfg
        (some { project := some { absolute_path := some "/p",
                                  git_remote_url := some "https://github.com/a/y.git",
                                  git_branch := some "main", name := some "B" } })
        (some { absolute_path := some "/p",
                git_remote_url := some "https://github.com/a/x.git",
                git_branch := some "main", name := some "A" }) = some tr ∧
      tr.query_params.switchTypeOf = some "remote" ∧
      tr.confidence = 0.95 ∧
      tr.query_type = "project_context" :=
  (C7_remote_switch id defaultProjectCfg
    { absolute_path := some "/p", git_remote_url := some "https://github.com/a/x.git",
      git_branch := some "main", name := some "A" }
    { absolute_path := some "/p", git_remote_url := some "https://github.com/a/y.git",
      git_branch := some "main", name := some "B" }
    rfl (by decide) (by decide)).1 (by decide)

end ClaimC7

section ClaimC8

open MemCache Detectors

/-- C8.  With the entity-names slot holding exactly `["UserManager"]`, valid
and unexpired, `EntityMentionDetector.evaluate` on `"What is UserManager?"`
returns a trigger naming `UserManager` whose confidence is
`round(min(1, 0.8·1) + 0.05, 2) = 0.85 ≥ 0.8` (base 0.6 raised to 0.8 by the
exact match, times average score 1, plus the `?` bump; the prompt is 20
characters, so no length bump). -/
theorem C8_entity_exact_match (t now : ℚ) (client : Option RefreshOutcome)
    (hvalid : ¬ (now > t + 300)) :
    ∃ tr, entityEvaluate defaultEntityCfg now client ⟨["UserManager"], some t, 300⟩
        "What is UserManager?" = .res (some tr) ∧
      tr.query_params = .entityDetails ["UserManager"] ∧
      tr.confidence = 0.85 ∧ (0.8 : ℚ) ≤ tr.confidence := by
  have hnames : getEntityNames now client false ⟨["UserManager"], some t, 300⟩ =
      .val ["UserManager"] := by
    rcases client with _ | oc
    · exact getEntityNames_no_client now false _
    · simp [getEntityNames, hvalid]
  have hconf : entityConfidence
      [{ name := "UserManager", match_type := .exactKind, match_score := 1 }]
      "What is UserManager?" = 0.85 := by
    norm_num [entityConfidence, roundTo2, roundHalfEven]
  have heval : entityEvaluate defaultEntityCfg now client ⟨["UserManager"], some t, 300⟩
      "What is UserManager?" = .res (some
        { triggered := true
          confidence := entityConfidence
            [{ name := "UserManager", match_type := .exactKind, match_score := 1 }]
            "What is UserManager?"
          estimated_tokens := 100
          query_type := "entity_details"
          query_params := .entityDetails ["UserManager"]
          reason := "Mentioned 1 known entity(ies): " ++ aposS ++ "UserManager" ++ aposS }) := by
    unfold entityEvaluate
    rw [hnames]
    rfl
  exact ⟨_, heval, rfl, hconf, by rw [hconf]; norm_num⟩

/-- C8, instantiated at refresh time 0, read time 0, no client. -/
theorem C8_entity_exact_match_witness :
    ∃ tr, entityEvaluate defaultEntityCfg 0 none ⟨["UserManager"], some 0, 300⟩
        "What is UserManager?" = .res (some tr) ∧
      tr.query_params = .entityDetails ["UserManager"] ∧
      tr.confidence = 0.85 ∧ (0.8 : ℚ) ≤ tr.confidence :=
  C8_entity_exact_match 0 0 none (by norm_num)

end ClaimC8

section ProjectSmoke
open MemCache Detectors

example : rstripGitChars "https://example.com/tooling" = "https://example.com/toolin" := by decide

example : codeNormalizeRemote "https://example.com/tooling" =
    codeNormalizeRemote "https://example.com/toolin" := by decide

example : specNormalizeRemote "https://example.com/tooling" ≠
    specNormalizeRemote "https://example.com/toolin" := by decide

example : codeNormalizeRemote "http://a/r.git" = "https://a/r" := by decide

example :
    projectEvaluate id defaultProjectCfg
      (some { project := some { absolute_path := some "/p",
                                git_remote_url := some "https://example.com/toolin",
                                git_branch := some "main", name := some "B" } })
      (some { absolute_path := some "/p",
              git_remote_url := some "https://example.com/tooling",
              git_branch := some "main", name := some "A" }) = none := by decide

example : shortenRemoteUrl "https://github.com/user/repo.git" = "github.com/user/repo" := by
  decide

end ProjectSmoke

section EntitySmoke
open MemCache Detectors

example : findEntityMentions defaultEntityCfg "What is UserManager?" ["UserManager"] =
    [{ name := "UserManager", match_type := .exactKind, match_score := 1 }] := by decide

example : isCodeBlock "What is UserManager?" = false := by decide

example : entityConfidence [{ name := "UserManager", match_type := .exactKind, match_score := 1 }]
    "What is UserManager?" = 17/20 := by
  norm_num [entityConfidence, roundTo2, roundHalfEven]

end EntitySmoke

section TTDSmoke
open MemCache Detectors

example : commaFmt 100000 = "100,000" := by decide

example :
    (ttdEvaluate (ttdInit (some [100000, 150000])) 100000).1.map
      (fun tr => tr.query_params.thresholdOf) = some (some 100000) := by
  norm_num [ttdEvaluate, ttdInit, firstCrossed, sortInts, insertSorted,
    QueryParams.thresholdOf]

example :
    (ttdEvaluate (ttdInit (some [100000, 150000])) 100000).1.map
      (fun tr => tr.confidence) = some 0.8 := by
  norm_num [ttdEvaluate, ttdInit, firstCrossed, sortInts, insertSorted,
    ttdConfidence]

end TTDSmoke
